import Mathlib

/-!
Verification of the framing core of photo_framer (src/framer.rs).

The development embeds `frame_image` shallowly:
* `f32` arithmetic (`dim as f32 / w`, `w / h`, products, `as u32` casts) is modelled
  exactly as round-to-nearest-even binary floating point with a 24-bit significand
  over `ℚ` (53 bits for the `f64` arithmetic inside the image crate's
  `resize_dimensions`); exponents are unbounded, which agrees with IEEE-754 for the
  moderate magnitudes arising here.
* rational arithmetic is written through `Rat.divInt` on numerators/denominators so
  that the kernel can evaluate it; the `q*_eq` lemmas below prove these operations
  equal the standard field operations on `ℚ`.
* images are dimensions plus a total pixel lookup; `imageops::overlay` and the
  white canvas are modelled pixelwise.
* the Lanczos3 resampling kernel is abstracted as a pixel-content parameter; the
  dimensions chosen by `DynamicImage::resize` follow the image crate's
  `resize_dimensions` (aspect-preserving fit) faithfully.
* decode/save are modelled as an `Option`-valued decode result and an output-file
  state, matching the early-return structure of `frame_image`.
-/

namespace PhotoFramer

/-! ## Kernel-computable rational arithmetic -/

/-- Multiplication on `ℚ` via `Rat.divInt`. -/
def qmul (a b : ℚ) : ℚ := Rat.divInt (a.num * b.num) ((a.den : ℤ) * (b.den : ℤ))

/-- Division on `ℚ` via `Rat.divInt` (`qdiv a 0 = 0`, as for `ℚ` division). -/
def qdiv (a b : ℚ) : ℚ := Rat.divInt (a.num * (b.den : ℤ)) ((a.den : ℤ) * b.num)

/-- Addition on `ℚ` via `Rat.divInt`. -/
def qadd (a b : ℚ) : ℚ :=
  Rat.divInt (a.num * (b.den : ℤ) + b.num * (a.den : ℤ)) ((a.den : ℤ) * (b.den : ℤ))

/-- Subtraction on `ℚ` via `Rat.divInt`. -/
def qsub (a b : ℚ) : ℚ :=
  Rat.divInt (a.num * (b.den : ℤ) - b.num * (a.den : ℤ)) ((a.den : ℤ) * (b.den : ℤ))

theorem num_eq_mul_den (a : ℚ) : (a.num : ℚ) = a * (a.den : ℚ) :=
  (div_eq_iff (Nat.cast_ne_zero.mpr a.den_nz)).mp (Rat.num_div_den a)

theorem qmul_eq (a b : ℚ) : qmul a b = a * b := by
  have had : ((a.den : ℕ) : ℚ) ≠ 0 := Nat.cast_ne_zero.mpr a.den_nz
  have hbd : ((b.den : ℕ) : ℚ) ≠ 0 := Nat.cast_ne_zero.mpr b.den_nz
  rw [qmul, Rat.divInt_eq_div]
  push_cast
  rw [div_eq_iff (mul_ne_zero had hbd), num_eq_mul_den a, num_eq_mul_den b]
  ring

theorem qdiv_eq (a b : ℚ) : qdiv a b = a / b := by
  by_cases hb : b = 0
  · subst hb
    simp [qdiv, Rat.divInt_eq_div]
  · have hbn : (b.num : ℚ) ≠ 0 := by
      simpa using Rat.num_ne_zero.mpr hb
    have had : ((a.den : ℕ) : ℚ) ≠ 0 := Nat.cast_ne_zero.mpr a.den_nz
    rw [qdiv, Rat.divInt_eq_div]
    push_cast
    rw [div_eq_div_iff (mul_ne_zero had hbn) hb, num_eq_mul_den a, num_eq_mul_den b]
    ring

theorem qadd_eq (a b : ℚ) : qadd a b = a + b := by
  have had : ((a.den : ℕ) : ℚ) ≠ 0 := Nat.cast_ne_zero.mpr a.den_nz
  have hbd : ((b.den : ℕ) : ℚ) ≠ 0 := Nat.cast_ne_zero.mpr b.den_nz
  rw [qadd, Rat.divInt_eq_div]
  push_cast
  rw [div_eq_iff (mul_ne_zero had hbd), num_eq_mul_den a, num_eq_mul_den b]
  ring

theorem qsub_eq (a b : ℚ) : qsub a b = a - b := by
  have had : ((a.den : ℕ) : ℚ) ≠ 0 := Nat.cast_ne_zero.mpr a.den_nz
  have hbd : ((b.den : ℕ) : ℚ) ≠ 0 := Nat.cast_ne_zero.mpr b.den_nz
  rw [qsub, Rat.divInt_eq_div]
  push_cast
  rw [div_eq_iff (mul_ne_zero had hbd), num_eq_mul_den a, num_eq_mul_den b]
  ring

/-! ## Exact binary floating-point model -/

/-- Truncation of a rational toward zero; agrees with the floor on nonnegative
arguments. -/
def ratTrunc (q : ℚ) : ℤ := q.num.tdiv (q.den : ℤ)

/-- One half, written so the kernel can evaluate it. -/
def half : ℚ := Rat.divInt 1 2

/-- Multiply a rational by `2 ^ e` for `e : ℤ`, at the numerator/denominator level. -/
def mulPow2 (q : ℚ) (e : ℤ) : ℚ :=
  if 0 ≤ e then Rat.divInt (q.num * 2 ^ e.toNat) (q.den : ℤ)
  else Rat.divInt q.num ((q.den : ℤ) * 2 ^ (-e).toNat)

/-- Fuel-driven `⌊log₂⌋` on naturals; structural recursion so that the kernel
can evaluate it. -/
def log2floorAux : ℕ → ℕ → ℕ
  | 0, _ => 0
  | fuel + 1, n => if 2 ≤ n then log2floorAux fuel (n / 2) + 1 else 0

/-- `⌊log₂ n⌋` for `1 ≤ n` (and `0` at `0`). -/
def log2floorN (n : ℕ) : ℕ := log2floorAux n n

/-- `⌈log₂ n⌉` for `1 ≤ n` (and `0` at `0` and `1`). -/
def clog2N (n : ℕ) : ℕ := if n ≤ 1 then 0 else log2floorN (n - 1) + 1

/-- Ceiling of a positive rational: truncate, and add one unless it is integral. -/
def ratCeilPos (q : ℚ) : ℤ := ratTrunc q + (if q.den = 1 then 0 else 1)

/-- `⌊log₂ q⌋` for a positive rational. -/
def qexp (q : ℚ) : ℤ :=
  if 1 ≤ q then (log2floorN (ratTrunc q).toNat : ℤ)
  else -(clog2N (ratCeilPos (qdiv 1 q)).toNat : ℤ)

/-- Round a nonnegative rational to the nearest integer, ties to even
(the IEEE-754 default rounding). -/
def roundTiesEven (q : ℚ) : ℤ :=
  let f := ratTrunc q
  let r := qsub q (Rat.divInt f 1)
  if r < half then f
  else if half < r then f + 1
  else if f % 2 = 0 then f else f + 1

/-- Round a positive rational to a binary float with `prec` significand bits. -/
def froundPos (prec : ℕ) (q : ℚ) : ℚ :=
  let e : ℤ := qexp q - ((prec : ℤ) - 1)
  mulPow2 (Rat.divInt (roundTiesEven (mulPow2 q (-e))) 1) e

/-- Round-to-nearest-even at `prec` significand bits; the model of storing a real
value into an `f32` (`prec = 24`) or `f64` (`prec = 53`). -/
def fround (prec : ℕ) (q : ℚ) : ℚ :=
  if q = 0 then 0
  else if 0 < q then froundPos prec q
  else -froundPos prec (-q)

/-- The `f32` value of a `u32` (`dim.0 as f32`). -/
def f32N (n : ℕ) : ℚ := fround 24 (n : ℚ)

/-- `f32` division. -/
def fdiv32 (a b : ℚ) : ℚ := fround 24 (qdiv a b)

/-- `f32` multiplication. -/
def fmul32 (a b : ℚ) : ℚ := fround 24 (qmul a b)

/-- The `f64` value of an integer quantity (`width as f64`). -/
def f64N (n : ℕ) : ℚ := fround 53 (n : ℚ)

/-- `f64` division. -/
def fdiv64 (a b : ℚ) : ℚ := fround 53 (qdiv a b)

/-- `f64` multiplication. -/
def fmul64 (a b : ℚ) : ℚ := fround 53 (qmul a b)

/-- Rust `expr as u32` on a finite float value: truncate toward zero, saturating
at `0` and `u32::MAX`. -/
def truncU32 (q : ℚ) : ℕ := min (ratTrunc q).toNat (2 ^ 32 - 1)

/-- Rust `f64::round`: nearest integer, ties away from zero. -/
def roundHalfAway (q : ℚ) : ℤ :=
  if 0 ≤ q then ratTrunc (qadd q half) else -ratTrunc (qadd (-q) half)

/-- `u32` wrapping subtraction `a - b` (release-mode semantics; in debug builds the
same subtraction panics when `b > a`). Faithful for `a, b < 2 ^ 32`. -/
def wrapSub (a b : ℕ) : ℕ := (a + 2 ^ 32 - b) % 2 ^ 32

/-! ## Images and the framing pipeline (src/framer.rs) -/

/-- An RGB pixel, 8-bit channels as naturals. -/
abbrev Rgb : Type := ℕ × ℕ × ℕ

/-- Solid white, `Rgb([255, 255, 255])`. -/
def white : Rgb := (255, 255, 255)

/-- An in-memory image: dimensions plus a total pixel lookup (row-major grid,
origin top-left; the lookup is only meaningful inside the bounds). -/
structure Img where
  width : ℕ
  height : ℕ
  pix : ℕ → ℕ → Rgb

/-- `Sizing` from src/framer.rs. The `AspectRatio` components carry the exact
rational values of the program's `f32` inputs. -/
inductive Sizing where
  | Dimensions (w h : ℕ)
  | AspectRatio (w h : ℚ)

/-- The pixel-content parameter abstracting the Lanczos3 resampling kernel:
given the source image and the target dimensions, it produces the resampled
pixel grid. Its numerics are outside the scope of the claims. -/
abbrev Resampler : Type := Img → ℕ → ℕ → (ℕ → ℕ → Rgb)

/-- `image::math::resize_dimensions(width, height, nwidth, nheight, fill = false)`:
the aspect-ratio-preserving fit computed by `DynamicImage::resize`, with `f64`
ratio arithmetic, `f64::round`, and saturation to `u32::MAX`. -/
def resizeFitDims (width height nwidth nheight : ℕ) : ℕ × ℕ :=
  let wratio := fdiv64 (f64N nwidth) (f64N width)
  let hratio := fdiv64 (f64N nheight) (f64N height)
  let ratio := min wratio hratio
  let nw := max (roundHalfAway (fmul64 (f64N width) ratio)).toNat 1
  let nh := max (roundHalfAway (fmul64 (f64N height) ratio)).toNat 1
  if 2 ^ 32 - 1 < nw then
    let r2 := fdiv64 (f64N (2 ^ 32 - 1)) (f64N width)
    (2 ^ 32 - 1, max (min (roundHalfAway (fmul64 (f64N height) r2)).toNat (2 ^ 32 - 1)) 1)
  else if 2 ^ 32 - 1 < nh then
    let r2 := fdiv64 (f64N (2 ^ 32 - 1)) (f64N height)
    (max (min (roundHalfAway (fmul64 (f64N width) r2)).toNat (2 ^ 32 - 1)) 1, 2 ^ 32 - 1)
  else (nw, nh)

/-- `DynamicImage::resize(nwidth, nheight, Lanczos3)`: identity when the target
equals the current dimensions, otherwise resample at the aspect-preserving fit
size given by `resizeFitDims`. -/
def resizeImg (lanczos : Resampler) (img : Img) (nwidth nheight : ℕ) : Img :=
  if (nwidth, nheight) = (img.width, img.height) then img
  else
    ⟨(resizeFitDims img.width img.height nwidth nheight).1,
      (resizeFitDims img.width img.height nwidth nheight).2,
      lanczos img (resizeFitDims img.width img.height nwidth nheight).1
        (resizeFitDims img.width img.height nwidth nheight).2⟩

/-- The source buffer that is composited: resized in `Dimensions` mode
(`img = img.resize(w, h, FilterType::Lanczos3)`), untouched in `AspectRatio`
mode. The later `to_rgb8()` alpha drop is the identity in this 3-channel model. -/
def sourceAfterSizing (lanczos : Resampler) (img : Img) : Sizing → Img
  | .Dimensions w h => resizeImg lanczos img w h
  | .AspectRatio _ _ => img

/-- The dimensions of `background_image`, computed by `frame_image` from the
original source dimensions `(sw, sh)`:
`Dimensions(w, h)` allocates exactly `w × h`; `AspectRatio(w, h)` compares
`(sw as f32 / w) < sh as f32 / h` and extends one axis with a truncating
`as u32` cast. -/
def canvasDims (sw sh : ℕ) : Sizing → ℕ × ℕ
  | .Dimensions w h => (w, h)
  | .AspectRatio w h =>
    if fdiv32 (f32N sw) w < fdiv32 (f32N sh) h then
      (truncU32 (fmul32 (f32N sh) (fdiv32 w h)), sh)
    else
      (sw, truncU32 (fmul32 (f32N sw) (fdiv32 h w)))

/-- The centering offset of `frame_image`: compare the (possibly resized) source
width `dim.0` with the canvas width; equal widths centre vertically with
`(background_dim.1 - dim.1) / 2`, otherwise centre horizontally with
`(background_dim.0 - dim.0) / 2` (wrapping `u32` subtraction). -/
def offsetOf (pd cd : ℕ × ℕ) : ℕ × ℕ :=
  if pd.1 = cd.1 then (0, wrapSub cd.2 pd.2 / 2) else (wrapSub cd.1 pd.1 / 2, 0)

/-- `image::imageops::overlay(bottom, top, x, y)` at a nonnegative offset:
top pixels overwrite bottom pixels wherever they land inside the bottom bounds
(`Rgb` blending is replacement); all other pixels keep the bottom value. -/
def overlayImg (bottom top : Img) (x y : ℕ) : Img :=
  { width := bottom.width
    height := bottom.height
    pix := fun i j =>
      if x ≤ i ∧ i < x + top.width ∧ y ≤ j ∧ j < y + top.height ∧
          i < bottom.width ∧ j < bottom.height then
        top.pix (i - x) (j - y)
      else bottom.pix i j }

/-- The solid-white background canvas allocated by `frame_image`
(`RgbImage::from_pixel(.., Rgb([255, 255, 255]))`). -/
def frameCanvas (img : Img) (s : Sizing) : Img :=
  ⟨(canvasDims img.width img.height s).1, (canvasDims img.width img.height s).2,
    fun _ _ => white⟩

/-- The offset at which `frame_image` composites the (possibly resized) source. -/
def frameOffset (lanczos : Resampler) (img : Img) (s : Sizing) : ℕ × ℕ :=
  offsetOf ((sourceAfterSizing lanczos img s).width, (sourceAfterSizing lanczos img s).height)
    (canvasDims img.width img.height s)

/-- The pure core of `frame_image` (src/framer.rs lines 15-42): resize per the
sizing mode, allocate the white canvas, compute the centering offset, and
overlay the source. Decode and save are modelled separately by `frameFile`. -/
def frameCore (lanczos : Resampler) (img : Img) (s : Sizing) : Img :=
  overlayImg (frameCanvas img s) (sourceAfterSizing lanczos img s)
    (frameOffset lanczos img s).1 (frameOffset lanczos img s).2

/-- Error classes of `frame_image`'s `ImageError` result, per the spec taxonomy:
decoding failures from `ImageReader::open(..)?.decode()?` and encoding failures
from `background_image.save(output)?`. -/
inductive FrameError where
  | decodeError
  | encodeError

/-- Modelled from the spec: the output-extension recognition performed inside
`RgbImage::save` (`ImageFormat::from_path`). The concrete set of enabled
encoders lives in the crate manifest, which is not part of the sources; the
spec fixes it as the JPEG family, PNG, and WEBP. -/
def recognizedExt (ext : String) : Bool :=
  ext = "jpg" || ext = "jpeg" || ext = "png" || ext = "webp"

/-- The I/O shell of `frame_image`: `decoded` is the decode result (`none` on
failure), `existing` the current content of the output path. Returns the call's
result together with the output path content after the call. The extension check
happens inside `save` before any file is created, so a failed call leaves the
output path untouched. -/
def frameFile (lanczos : Resampler) (decoded : Option Img) (s : Sizing) (outExt : String)
    (existing : Option Img) : Except FrameError Img × Option Img :=
  match decoded with
  | none => (.error .decodeError, existing)
  | some img =>
    if recognizedExt outExt then
      (.ok (frameCore lanczos img s), some (frameCore lanczos img s))
    else (.error .encodeError, existing)

/-- A concrete resampler for witnesses: every resampled pixel is the source's
top-left pixel. -/
def lanczos0 : Resampler := fun img _ _ _ _ => img.pix 0 0

/-- A concrete all-black test image of the given dimensions. -/
def testImg (w h : ℕ) : Img := ⟨w, h, fun _ _ => (0, 0, 0)⟩

/-! ## Helper lemmas shared by the claim theorems -/

theorem frameCore_width (lanczos : Resampler) (img : Img) (s : Sizing) :
    (frameCore lanczos img s).width = (canvasDims img.width img.height s).1 := rfl

theorem frameCore_height (lanczos : Resampler) (img : Img) (s : Sizing) :
    (frameCore lanczos img s).height = (canvasDims img.width img.height s).2 := rfl

theorem canvasDims_aspect_pos (sw sh : ℕ) (w h : ℚ)
    (hlt : fdiv32 (f32N sw) w < fdiv32 (f32N sh) h) :
    canvasDims sw sh (.AspectRatio w h) = (truncU32 (fmul32 (f32N sh) (fdiv32 w h)), sh) := by
  simp only [canvasDims]
  rw [if_pos hlt]

theorem canvasDims_aspect_neg (sw sh : ℕ) (w h : ℚ)
    (hnlt : ¬ fdiv32 (f32N sw) w < fdiv32 (f32N sh) h) :
    canvasDims sw sh (.AspectRatio w h) = (sw, truncU32 (fmul32 (f32N sw) (fdiv32 h w))) := by
  simp only [canvasDims]
  rw [if_neg hnlt]

theorem resizeImg_width (lanczos : Resampler) (img : Img) (nw nh : ℕ) :
    (resizeImg lanczos img nw nh).width =
      if (nw, nh) = (img.width, img.height) then img.width
      else (resizeFitDims img.width img.height nw nh).1 := by
  unfold resizeImg
  split
  · rfl
  · rfl

theorem resizeImg_height (lanczos : Resampler) (img : Img) (nw nh : ℕ) :
    (resizeImg lanczos img nw nh).height =
      if (nw, nh) = (img.width, img.height) then img.height
      else (resizeFitDims img.width img.height nw nh).2 := by
  unfold resizeImg
  split
  · rfl
  · rfl

/-! ## Claim theorems -/

/-- Claim C1, counterexample: for an 800×600 source with `Dimensions(1080, 1080)`,
`frame_image` does NOT stretch the source to 1080×1080: `DynamicImage::resize`
preserves aspect ratio, producing a 1080×810 source, and the composite offset is
`(0, 135)`, not `(0, 0)`. -/
theorem dimensions_stretch_cex :
    (sourceAfterSizing lanczos0 (testImg 800 600) (.Dimensions 1080 1080)).width = 1080 ∧
    (sourceAfterSizing lanczos0 (testImg 800 600) (.Dimensions 1080 1080)).height = 810 ∧
    (810 : ℕ) ≠ 1080 ∧
    frameOffset lanczos0 (testImg 800 600) (.Dimensions 1080 1080) = (0, 135) ∧
    ((0, 135) : ℕ × ℕ) ≠ (0, 0) := by decide

/-- Claim C1, amended: in `Dimensions(w, h)` mode the source is resized with the
image crate's aspect-ratio-preserving fit (Lanczos3) rather than stretched, while
the canvas is exactly `w × h`, so border bars can appear; for an 800×600 source
with `Dimensions(1080, 1080)` the source becomes 1080×810, the canvas 1080×1080,
and the composite offset `(0, 135)`. -/
theorem dimensions_mode_fit (lanczos : Resampler) (img : Img)
    (hw : img.width = 800) (hh : img.height = 600) :
    (frameCore lanczos img (.Dimensions 1080 1080)).width = 1080 ∧
    (frameCore lanczos img (.Dimensions 1080 1080)).height = 1080 ∧
    (sourceAfterSizing lanczos img (.Dimensions 1080 1080)).width = 1080 ∧
    (sourceAfterSizing lanczos img (.Dimensions 1080 1080)).height = 810 ∧
    frameOffset lanczos img (.Dimensions 1080 1080) = (0, 135) := by
  obtain ⟨w, h, pix⟩ := img
  have hw' : w = 800 := hw
  have hh' : h = 600 := hh
  subst hw'
  subst hh'
  have hfit : resizeFitDims 800 600 1080 1080 = (1080, 810) := by decide
  refine ⟨rfl, rfl, ?_, ?_, ?_⟩
  · simp only [sourceAfterSizing, resizeImg_width]
    rw [if_neg (by decide), hfit]
  · simp only [sourceAfterSizing, resizeImg_height]
    rw [if_neg (by decide), hfit]
  · simp only [frameOffset, sourceAfterSizing, resizeImg_width, resizeImg_height]
    rw [if_neg (by decide), if_neg (by decide), hfit]
    decide

/-- Claim C1, witness for the amended theorem at a concrete 800×600 image. -/
theorem dimensions_mode_fit_witness :
    (frameCore lanczos0 (testImg 800 600) (.Dimensions 1080 1080)).width = 1080 ∧
    (frameCore lanczos0 (testImg 800 600) (.Dimensions 1080 1080)).height = 1080 ∧
    (sourceAfterSizing lanczos0 (testImg 800 600) (.Dimensions 1080 1080)).width = 1080 ∧
    (sourceAfterSizing lanczos0 (testImg 800 600) (.Dimensions 1080 1080)).height = 810 ∧
    frameOffset lanczos0 (testImg 800 600) (.Dimensions 1080 1080) = (0, 135) :=
  dimensions_mode_fit lanczos0 (testImg 800 600) rfl rfl

/-- Claim C2: for every frame_image run, every output pixel inside the rectangle
where the (possibly resized) source was placed equals the corresponding source
pixel, and every output pixel strictly outside that rectangle is solid white. -/
theorem compositing_correctness (lanczos : Resampler) (img : Img) (s : Sizing) (i j : ℕ)
    (hi : i < (frameCore lanczos img s).width) (hj : j < (frameCore lanczos img s).height) :
    ((frameOffset lanczos img s).1 ≤ i ∧
        i < (frameOffset lanczos img s).1 + (sourceAfterSizing lanczos img s).width ∧
        (frameOffset lanczos img s).2 ≤ j ∧
        j < (frameOffset lanczos img s).2 + (sourceAfterSizing lanczos img s).height →
      (frameCore lanczos img s).pix i j =
        (sourceAfterSizing lanczos img s).pix (i - (frameOffset lanczos img s).1)
          (j - (frameOffset lanczos img s).2)) ∧
    (¬ ((frameOffset lanczos img s).1 ≤ i ∧
        i < (frameOffset lanczos img s).1 + (sourceAfterSizing lanczos img s).width ∧
        (frameOffset lanczos img s).2 ≤ j ∧
        j < (frameOffset lanczos img s).2 + (sourceAfterSizing lanczos img s).height) →
      (frameCore lanczos img s).pix i j = white) := by
  have hpix : (frameCore lanczos img s).pix i j =
      (if (frameOffset lanczos img s).1 ≤ i ∧
          i < (frameOffset lanczos img s).1 + (sourceAfterSizing lanczos img s).width ∧
          (frameOffset lanczos img s).2 ≤ j ∧
          j < (frameOffset lanczos img s).2 + (sourceAfterSizing lanczos img s).height ∧
          i < (frameCanvas img s).width ∧ j < (frameCanvas img s).height then
        (sourceAfterSizing lanczos img s).pix (i - (frameOffset lanczos img s).1)
          (j - (frameOffset lanczos img s).2)
      else white) := rfl
  constructor
  · rintro ⟨h1, h2, h3, h4⟩
    rw [hpix, if_pos ⟨h1, h2, h3, h4, hi, hj⟩]
  · intro hout
    rw [hpix, if_neg (fun hc => hout ⟨hc.1, hc.2.1, hc.2.2.1, hc.2.2.2.1⟩)]

/-- Claim C2, witness: the top-left pixel of the framed 100×200 image at ratio 1:1
lies in the left border bar and is white. -/
theorem compositing_correctness_witness :
    (frameCore lanczos0 (testImg 100 200) (.AspectRatio 1 1)).pix 0 0 = white :=
  (compositing_correctness lanczos0 (testImg 100 200) (.AspectRatio 1 1) 0 0
    (by decide) (by decide)).2 (by decide)

/-- Claim C3, counterexample: for a 1×3 source with `AspectRatio(1, 2)` the
vertical-bars branch is taken and the canvas width is `(3 * 0.5) as u32 = 1`
(truncation), whereas rounding `1.5` would give `2`. -/
theorem aspect_canvas_round_cex :
    fdiv32 (f32N 1) 1 < fdiv32 (f32N 3) 2 ∧
    (frameCore lanczos0 (testImg 1 3) (.AspectRatio 1 2)).width = 1 ∧
    (roundHalfAway (fmul32 (f32N 3) (fdiv32 1 2))).toNat = 2 ∧
    (1 : ℕ) ≠ 2 := by decide

/-- Claim C3, amended: in `AspectRatio(w, h)` mode, if `sw/w < sh/h` (as f32) the
canvas is `(trunc(sh * (w/h)), sh)`, otherwise `(sw, trunc(sw * (h/w)))` — the
extended dimension is computed by the truncating `as u32` cast, not by rounding. -/
theorem aspect_canvas_trunc (lanczos : Resampler) (img : Img) (w h : ℚ) :
    (fdiv32 (f32N img.width) w < fdiv32 (f32N img.height) h →
      (frameCore lanczos img (.AspectRatio w h)).width =
        truncU32 (fmul32 (f32N img.height) (fdiv32 w h)) ∧
      (frameCore lanczos img (.AspectRatio w h)).height = img.height) ∧
    (¬ fdiv32 (f32N img.width) w < fdiv32 (f32N img.height) h →
      (frameCore lanczos img (.AspectRatio w h)).width = img.width ∧
      (frameCore lanczos img (.AspectRatio w h)).height =
        truncU32 (fmul32 (f32N img.width) (fdiv32 h w))) := by
  constructor
  · intro hlt
    rw [frameCore_width, frameCore_height, canvasDims_aspect_pos _ _ _ _ hlt]
    exact ⟨rfl, rfl⟩
  · intro hnlt
    rw [frameCore_width, frameCore_height, canvasDims_aspect_neg _ _ _ _ hnlt]
    exact ⟨rfl, rfl⟩

/-- Claim C3, witness for the amended theorem at the 1×3 source with ratio 1:2. -/
theorem aspect_canvas_trunc_witness :
    (frameCore lanczos0 (testImg 1 3) (.AspectRatio 1 2)).width =
      truncU32 (fmul32 (f32N 3) (fdiv32 1 2)) ∧
    (frameCore lanczos0 (testImg 1 3) (.AspectRatio 1 2)).height = 3 :=
  (aspect_canvas_trunc lanczos0 (testImg 1 3) 1 2).1 (by decide)

/-- Claim C4, counterexample: at 27×63 with `AspectRatio(3, 7)` the output height
is 62, strictly below the source height 63 (refuting `output_h ≥ source_h`); at
100×200 with `AspectRatio(1001, 2000)` both output dimensions equal the source
dimensions (refuting "exactly one of the two equals"); and at 2147483583×1 with
`AspectRatio(1, 1)` the output is 2147483583×2147483520 — the width 2147483583
casts to the f32 value 2147483520, so the output is 63 pixels away from the
requested 1:1 ratio (for w = h the ratio conjunct says the two output dimensions
differ by at most one pixel, refuting "output_w / output_h approximates w / h
within one pixel of rounding"). -/
theorem canvas_ge_source_cex :
    ((frameCore lanczos0 (testImg 27 63) (.AspectRatio 3 7)).height = 62 ∧
      ¬ 63 ≤ (frameCore lanczos0 (testImg 27 63) (.AspectRatio 3 7)).height) ∧
    ((frameCore lanczos0 (testImg 100 200) (.AspectRatio 1001 2000)).width = 100 ∧
      (frameCore lanczos0 (testImg 100 200) (.AspectRatio 1001 2000)).height = 200) ∧
    ((frameCore lanczos0 (testImg 2147483583 1) (.AspectRatio 1 1)).width = 2147483583 ∧
      (frameCore lanczos0 (testImg 2147483583 1) (.AspectRatio 1 1)).height = 2147483520 ∧
      ¬ (frameCore lanczos0 (testImg 2147483583 1) (.AspectRatio 1 1)).width ≤
        (frameCore lanczos0 (testImg 2147483583 1) (.AspectRatio 1 1)).height + 1) := by
  decide

/-- Claim C4, amended: in `AspectRatio` mode at least one output dimension equals
the corresponding source dimension (the height in the vertical-bars branch, the
width in the horizontal-bars branch); the other dimension comes from truncated
f32 arithmetic and can fall below, equal, or exceed the source dimension, and for
sources with a dimension beyond 2^24 the f32 rounding error can put the output
aspect ratio several pixels away from w:h. -/
theorem canvas_matches_source_on_one_axis (lanczos : Resampler) (img : Img) (w h : ℚ) :
    (frameCore lanczos img (.AspectRatio w h)).width = img.width ∨
    (frameCore lanczos img (.AspectRatio w h)).height = img.height := by
  by_cases hlt : fdiv32 (f32N img.width) w < fdiv32 (f32N img.height) h
  · right
    rw [frameCore_height, canvasDims_aspect_pos _ _ _ _ hlt]
  · left
    rw [frameCore_width, canvasDims_aspect_neg _ _ _ _ hlt]

/-- Claim C5: the offset is derived by comparing canvas width to source width —
`(0, (canvas_h - source_h) / 2)` when equal, `((canvas_w - source_w) / 2, 0)`
otherwise (truncating division) — and when the canvas is at least as large as the
source on the bar axis, the two border bars differ in thickness by at most one
pixel. -/
theorem offset_centering (pw ph cw ch : ℕ) (hcw : cw < 2 ^ 32) (hch : ch < 2 ^ 32) :
    (pw = cw →
      offsetOf (pw, ph) (cw, ch) = (0, wrapSub ch ph / 2) ∧
      (ph ≤ ch →
        wrapSub ch ph / 2 = (ch - ph) / 2 ∧
        (ch - ph) - (ch - ph) / 2 ≤ (ch - ph) / 2 + 1 ∧
        (ch - ph) / 2 ≤ (ch - ph) - (ch - ph) / 2)) ∧
    (pw ≠ cw →
      offsetOf (pw, ph) (cw, ch) = (wrapSub cw pw / 2, 0) ∧
      (pw ≤ cw →
        wrapSub cw pw / 2 = (cw - pw) / 2 ∧
        (cw - pw) - (cw - pw) / 2 ≤ (cw - pw) / 2 + 1 ∧
        (cw - pw) / 2 ≤ (cw - pw) - (cw - pw) / 2)) := by
  constructor
  · intro he
    refine ⟨by simp [offsetOf, he], fun hle => ?_⟩
    have hsub : wrapSub ch ph = ch - ph := by
      unfold wrapSub
      omega
    exact ⟨by rw [hsub], by omega, by omega⟩
  · intro hne
    refine ⟨by simp [offsetOf, hne], fun hle => ?_⟩
    have hsub : wrapSub cw pw = cw - pw := by
      unfold wrapSub
      omega
    exact ⟨by rw [hsub], by omega, by omega⟩

/-- Claim C5, witness: a 100×200 source on a 200×200 canvas gets offset `(50, 0)`
with equal 50-pixel bars. -/
theorem offset_centering_witness :
    offsetOf (100, 200) (200, 200) = (wrapSub 200 100 / 2, 0) ∧
    wrapSub 200 100 / 2 = (200 - 100) / 2 :=
  ⟨((offset_centering 100 200 200 200 (by decide) (by decide)).2 (by decide)).1,
    (((offset_centering 100 200 200 200 (by decide) (by decide)).2 (by decide)).2
      (by decide)).1⟩

/-- Claim C6, counterexample: for a 54×126 source with `AspectRatio(6, 14)` the two
f32 ratios are exactly equal (both 9.0) and the horizontal-bars branch is taken,
yet the canvas height is 125, not the source height 126, so the canvas does not
equal the source and a border/underflow arises. -/
theorem aspect_equal_ratio_cex :
    fdiv32 (f32N 54) 6 = fdiv32 (f32N 126) 14 ∧
    (frameCore lanczos0 (testImg 54 126) (.AspectRatio 6 14)).width = 54 ∧
    (frameCore lanczos0 (testImg 54 126) (.AspectRatio 6 14)).height = 125 ∧
    (125 : ℕ) ≠ 126 := by decide

/-- Claim C6, amended: when `sw/w == sh/h` as f32, the horizontal-bars branch is
taken and the canvas width equals the source width; the canvas height is
`trunc(sw * (h/w))`, which can differ from the source height. -/
theorem aspect_equal_ratio_branch (lanczos : Resampler) (img : Img) (w h : ℚ)
    (heq : fdiv32 (f32N img.width) w = fdiv32 (f32N img.height) h) :
    (frameCore lanczos img (.AspectRatio w h)).width = img.width ∧
    (frameCore lanczos img (.AspectRatio w h)).height =
      truncU32 (fmul32 (f32N img.width) (fdiv32 h w)) := by
  have hnlt : ¬ fdiv32 (f32N img.width) w < fdiv32 (f32N img.height) h := by
    rw [heq]
    exact lt_irrefl _
  rw [frameCore_width, frameCore_height, canvasDims_aspect_neg _ _ _ _ hnlt]
  exact ⟨rfl, rfl⟩

/-- Claim C6, witness for the amended theorem at a 100×100 source with ratio 1:1. -/
theorem aspect_equal_ratio_branch_witness :
    (frameCore lanczos0 (testImg 100 100) (.AspectRatio 1 1)).width = 100 ∧
    (frameCore lanczos0 (testImg 100 100) (.AspectRatio 1 1)).height =
      truncU32 (fmul32 (f32N 100) (fdiv32 1 1)) :=
  aspect_equal_ratio_branch lanczos0 (testImg 100 100) 1 1 (by decide)

/-- Claim C7: for positive `(w, h)` in Dimensions mode the image written to the
output path has dimensions exactly `(w, h)`, for every decoded source. -/
theorem dimensions_output_dims (lanczos : Resampler) (img : Img) (w h : ℕ)
    (hw : 0 < w) (hh : 0 < h) (ext : String) (existing : Option Img)
    (hext : recognizedExt ext = true) :
    (frameFile lanczos (some img) (.Dimensions w h) ext existing).2 =
      some (frameCore lanczos img (.Dimensions w h)) ∧
    (frameCore lanczos img (.Dimensions w h)).width = w ∧
    (frameCore lanczos img (.Dimensions w h)).height = h := by
  refine ⟨?_, rfl, rfl⟩
  simp [frameFile, hext]

/-- Claim C7, witness at a 800×600 source with `Dimensions(1080, 1080)` saved as PNG. -/
theorem dimensions_output_dims_witness :
    (frameFile lanczos0 (some (testImg 800 600)) (.Dimensions 1080 1080) "png" none).2 =
      some (frameCore lanczos0 (testImg 800 600) (.Dimensions 1080 1080)) ∧
    (frameCore lanczos0 (testImg 800 600) (.Dimensions 1080 1080)).width = 1080 ∧
    (frameCore lanczos0 (testImg 800 600) (.Dimensions 1080 1080)).height = 1080 :=
  dimensions_output_dims lanczos0 (testImg 800 600) 1080 1080 (by decide) (by decide)
    "png" none (by decide)

/-- Claim C8: an unrecognized output extension such as `.bmp` fails with the
encode-classified error before anything is written, leaving the output path
exactly as it was. -/
theorem unrecognized_extension_encode_error (lanczos : Resampler) (img : Img) (s : Sizing)
    (existing : Option Img) :
    frameFile lanczos (some img) s "bmp" existing = (.error .encodeError, existing) := rfl

/-- Claim C9: when decoding fails, frame_image returns the decode-classified error
and performs no write — the output path keeps its previous content. -/
theorem decode_failure_no_write (lanczos : Resampler) (s : Sizing) (ext : String)
    (existing : Option Img) :
    frameFile lanczos none s ext existing = (.error .decodeError, existing) := rfl

/-- Claim C10, refuting evaluation: for a 45×117 source with `AspectRatio(5, 13)`
(valid inputs: dimensions ≥ 1, positive ratio components) the canvas is 45×116,
its height is strictly below the source height while the widths are equal, so the
`u32` subtraction `(background_dim.1 - dim.1)` underflows: the offset becomes
`(0, 2147483647)` under wrapping semantics (a panic in debug builds). -/
theorem offset_underflow_at_45x117 :
    canvasDims 45 117 (.AspectRatio 5 13) = (45, 116) ∧
    (frameCore lanczos0 (testImg 45 117) (.AspectRatio 5 13)).height = 116 ∧
    (116 : ℕ) < 117 ∧
    frameOffset lanczos0 (testImg 45 117) (.AspectRatio 5 13) = (0, 2147483647) := by
  decide

end PhotoFramer
